import Mathlib

/-!
# aws_spot_exporter: the collection pipeline of `collector/aws_collector.go`

A shallow embedding of the exporter's collection cycle
(`Collect`, `scrape`, `setSpotMarketMetrics`, `scrapeSpotMarketPrice`)
and theorems about it.

Modelling conventions.

* `*string` fields of the SDK's response structures are `Option String`
  (`none` is the nil pointer).  Dereferencing a nil pointer is a Go run-time
  panic; functions that dereference return `Except GoPanic _`.  Structure
  pointers (`*ec2.SpotPrice`, `*ec2.Region`, the output structures) are
  allocated by the SDK and are taken as present.
* `float64` is an abstract type `F`; `strconv.ParseFloat` is a parameter
  `parseFloat : String → Option F` (`none` when it returns an error).
* `uint64` counters are `Nat` with explicit reduction modulo `2 ^ 64`.
* The unbuffered channel `spotScrapes` is the list of values handed over on
  it, in hand-over order.  The order in which concurrent region fetches get
  to send is a parameter (`sched`), see `interleave`.
* Wall-clock readings are parameters; gauges that hold a `float64` converted
  from an integer keep that integer.
-/

set_option linter.dupNamespace false

namespace Collector

/-! ## Go run-time and SDK types -/

/-- Run-time panics of the Go program that the model tracks. -/
inductive GoPanic where
  | nilDereference
deriving DecidableEq

/-- Dereference `*p` of a pointer `p`: panics on nil. -/
def deref {α : Type} : Option α → Except GoPanic α
  | some a => .ok a
  | none => .error .nilDereference

/-- Width of `uint64`. -/
def uint64Size : Nat := 2 ^ 64

/-- Wrapping addition `a + b` on `uint64` (also `atomic.AddUint64`). -/
def uint64Add (a b : Nat) : Nat := (a + b) % uint64Size

/-- An error returned by an SDK call (`err != nil`); only its presence matters. -/
structure AwsError where
  msg : String
deriving DecidableEq

namespace ec2

/-- The SDK structure `ec2.SpotPrice`, restricted to the fields the exporter reads. -/
structure SpotPrice where
  SpotPrice : Option String
  AvailabilityZone : Option String
  ProductDescription : Option String
  InstanceType : Option String
deriving DecidableEq

/-- The SDK structure `ec2.DescribeSpotPriceHistoryOutput`. -/
structure DescribeSpotPriceHistoryOutput where
  SpotPriceHistory : List SpotPrice
deriving DecidableEq

/-- The SDK structure `ec2.Region`. -/
structure Region where
  RegionName : Option String
deriving DecidableEq

/-- The SDK structure `ec2.DescribeRegionsOutput`. -/
structure DescribeRegionsOutput where
  Regions : List Region
deriving DecidableEq

end ec2

/-- The answers of the provider during one cycle: the result pair of
`DescribeRegions` and, for each region the client is configured with, the
result pair of `DescribeSpotPriceHistory`. -/
structure Aws where
  DescribeRegions : ec2.DescribeRegionsOutput × Option AwsError
  DescribeSpotPriceHistory : String → ec2.DescribeSpotPriceHistoryOutput × Option AwsError

/-! ## The exporter's types -/

/-- The Go structure `SpotMarketScrapeResult`. -/
structure SpotMarketScrapeResult (F : Type) where
  Region : String
  AvailabilityZone : String
  InstanceType : String
  Product : String
  Price : F
deriving DecidableEq

/-- The Go structure `spotMarketScrapeError`. -/
structure spotMarketScrapeError where
  count : Nat
deriving DecidableEq

/-- Values of the Go interface `error` as `scrape` tells them apart with
`err.(*spotMarketScrapeError)`. -/
inductive GoError where
  | scrapeError (e : spotMarketScrapeError)
  | other (msg : String)
deriving DecidableEq

/-- The label values `region`, `az`, `product`, `instance_type` of one series
of the `spot_price` gauge vector. -/
structure Labels where
  region : String
  az : String
  product : String
  instance_type : String
deriving DecidableEq

/-- A `prometheus.GaugeVec`: the series created so far, each with its value. -/
abbrev GaugeVec (F : Type) := List (Labels × F)

/-- The value of the series with labels `k`, if the vector has one. -/
def GaugeVec.value {F : Type} (g : GaugeVec F) (k : Labels) : Option F :=
  match g with
  | [] => none
  | (k', v) :: rest => if k' = k then some v else GaugeVec.value rest k

/-- The call `g.With(k).Set(v)`: the series of `k` is created if the vector does
not have it, and its value becomes `v`. -/
def GaugeVec.withSet {F : Type} (g : GaugeVec F) (k : Labels) (v : F) : GaugeVec F :=
  match g with
  | [] => [(k, v)]
  | (k', v') :: rest => if k' = k then (k, v) :: rest else (k', v') :: GaugeVec.withSet rest k v

/-- The Go structure `Exporter` (the session and the lock carry no data here).
`duration` keeps the elapsed nanoseconds and `scrapeErrors` the `uint64` the
gauge was set from. -/
structure Exporter (F : Type) where
  spotMarketPrices : GaugeVec F
  duration : Int
  scrapeErrors : Nat
  totalScrapes : Nat
deriving DecidableEq

/-- What one `Collect` sends to the registry: the four metric families. -/
structure Collected (F : Type) where
  duration : Int
  totalScrapes : Nat
  scrapeErrors : Nat
  spotMarketPrices : GaugeVec F
deriving DecidableEq

/-! ## Region price fetcher: `scrapeSpotMarketPrice` -/

/-- The local state of `scrapeSpotMarketPrice`: the values sent on `scrapes`
so far and the variable `errorCount`. -/
structure FetchState (F : Type) where
  sent : List (SpotMarketScrapeResult F)
  errorCount : Nat
deriving DecidableEq

/-- One iteration of the loop over `phResp.SpotPriceHistory` (source lines
190-207). -/
def scrapeRecord {F : Type} (parseFloat : String → Option F) (region : String)
    (st : FetchState F) (sp : ec2.SpotPrice) : Except GoPanic (FetchState F) :=
  match sp.SpotPrice with
  | none => .ok st
  | some s =>
    match parseFloat s with
    | none => .ok { st with errorCount := uint64Add st.errorCount 1 }
    | some spotPrice =>
      match deref sp.AvailabilityZone with
      | .error p => .error p
      | .ok az =>
        match deref sp.ProductDescription with
        | .error p => .error p
        | .ok product =>
          match deref sp.InstanceType with
          | .error p => .error p
          | .ok ty =>
            .ok { st with sent := st.sent ++ [⟨region, az, ty, product, spotPrice⟩] }

/-- The loop over `phResp.SpotPriceHistory`. -/
def scrapeRecords {F : Type} (parseFloat : String → Option F) (region : String) :
    List ec2.SpotPrice → FetchState F → Except GoPanic (FetchState F)
  | [], st => .ok st
  | sp :: rest, st =>
    match scrapeRecord parseFloat region st sp with
    | .error p => .error p
    | .ok st' => scrapeRecords parseFloat region rest st'

/-- Source lines 175-207 of `scrapeSpotMarketPrice`: the listing call, its
error check, and the loop; the result is the state before the final test of
`errorCount`. -/
def scrapeLoop {F : Type} (parseFloat : String → Option F) (aws : Aws) (region : String) :
    Except GoPanic (FetchState F) :=
  let phResp := (aws.DescribeSpotPriceHistory region).1
  let err := (aws.DescribeSpotPriceHistory region).2
  let errorCount := match err with
    | some _ => uint64Add 0 1
    | none => 0
  scrapeRecords parseFloat region phResp.SpotPriceHistory ⟨[], errorCount⟩

/-- The return statement of `scrapeSpotMarketPrice` (source lines 209-212). -/
def scrapeReturn (errorCount : Nat) : Option GoError :=
  if errorCount > 0 then some (.scrapeError ⟨errorCount⟩) else none

/-- The method `scrapeSpotMarketPrice`: the values it sends on `scrapes`, in
order, and the `error` it returns. -/
def scrapeSpotMarketPrice {F : Type} (parseFloat : String → Option F) (aws : Aws)
    (region : String) : Except GoPanic (List (SpotMarketScrapeResult F) × Option GoError) :=
  match scrapeLoop parseFloat aws region with
  | .error p => .error p
  | .ok st => .ok (st.sent, scrapeReturn st.errorCount)

/-! ## A numeral parser for concrete evaluations -/

/-- An unsigned decimal numeral: `digits / 10 ^ scale`. -/
structure Decimal where
  digits : Nat
  scale : Nat
deriving DecidableEq

/-- Reads decimal digits, at most one point among them. -/
def readDecimal : List Char → Bool → Decimal → Option Decimal
  | [], _, d => some d
  | c :: cs, seenPoint, d =>
    if c.isDigit then
      readDecimal cs seenPoint
        ⟨d.digits * 10 + (c.toNat - 48), if seenPoint then d.scale + 1 else d.scale⟩
    else if c = '.' ∧ seenPoint = false then readDecimal cs true d
    else none

/-- A parser that stands for `strconv.ParseFloat` in concrete evaluations.  It
accepts the unsigned numerals made of digits and at most one point, which
`strconv.ParseFloat` accepts as well, and rejects the rest.  The only rejected
string in the evaluations below is "abc", which `strconv.ParseFloat` rejects
as well; signs, exponents and the other spellings it accepts do not occur. -/
def parseDecimal (s : String) : Option Decimal :=
  match s.toList with
  | [] => none
  | cs => if cs.any Char.isDigit then readDecimal cs false ⟨0, 0⟩ else none

/-! ## Scrape orchestrator: `scrape` -/

/-- Takes the head of the `i`-th queue, when that queue exists and is not empty. -/
def popAt {α : Type} : Nat → List (List α) → Option (α × List (List α))
  | _, [] => none
  | 0, [] :: _ => none
  | 0, (x :: q) :: qs => some (x, q :: qs)
  | i + 1, q :: qs =>
    match popAt i qs with
    | none => none
    | some (x, qs') => some (x, q :: qs')

/-- The order of hand-over on the shared channel.  Each concurrent sender has
a queue of values it sends in order; `sched` names, step by step, the sender
whose next value the receiver takes (a step naming a sender with nothing left
is skipped).  When `sched` is used up the remaining values are taken sender by
sender. -/
def interleave {α : Type} : List Nat → List (List α) → List α
  | [], qs => qs.flatten
  | i :: sched, qs =>
    match popAt i qs with
    | some (x, qs') => x :: interleave sched qs'
    | none => interleave sched qs

/-- The sequences the receiver can get from concurrent senders with the queues
`qs`: at each step some sender with a value left hands over its next value. -/
inductive Handover {α : Type} : List (List α) → List α → Prop where
  | done (qs : List (List α)) : qs.flatten = [] → Handover qs []
  | take (i : Nat) (qs qs' : List (List α)) (x : α) (m : List α) :
      popAt i qs = some (x, qs') → Handover qs' m → Handover qs (x :: m)

/-- The goroutine `scrape` starts for one region (source lines 140-151): the
values it sends and the amount it adds to the shared `errorCount`. -/
def regionTask {F : Type} (parseFloat : String → Option F) (aws : Aws) (region : String) :
    Except GoPanic (List (SpotMarketScrapeResult F) × Nat) :=
  match scrapeSpotMarketPrice parseFloat aws region with
  | .error p => .error p
  | .ok (sent, none) => .ok (sent, 0)
  | .ok (sent, some (.scrapeError e)) => .ok (sent, e.count)
  | .ok (sent, some (.other _)) => .ok (sent, 1)

/-- The loop over `regions.Regions` followed by `wg.Wait()` (source lines
138-153).  The state is the queue of values of each goroutine started so far
and the shared `errorCount`; the atomic additions commute, so they are taken
in region order. -/
def fanOut {F : Type} (parseFloat : String → Option F) (aws : Aws) :
    List ec2.Region → List (List (SpotMarketScrapeResult F)) × Nat →
    Except GoPanic (List (List (SpotMarketScrapeResult F)) × Nat)
  | [], acc => .ok acc
  | r :: rs, acc =>
    match deref r.RegionName with
    | .error p => .error p
    | .ok region =>
      match regionTask parseFloat aws region with
      | .error p => .error p
      | .ok (sent, n) => fanOut parseFloat aws rs (acc.1 ++ [sent], uint64Add acc.2 n)

/-- What surrounds one cycle: the provider's answers, the two readings of
`time.Now().UnixNano()` in `scrape`, and the order in which the concurrent
senders hand over their values. -/
structure Cycle where
  aws : Aws
  start : Int
  finish : Int
  sched : List Nat

/-- The method `scrape`: the exporter after it, and the values handed over on
`spotScrapes` before the deferred `close`. -/
def scrape {F : Type} (parseFloat : String → Option F) (e : Exporter F) (c : Cycle) :
    Except GoPanic (Exporter F × List (SpotMarketScrapeResult F)) :=
  let e1 := { e with totalScrapes := e.totalScrapes + 1 }
  let regions := c.aws.DescribeRegions.1
  let err := c.aws.DescribeRegions.2
  let fetched : Except GoPanic (List (SpotMarketScrapeResult F) × Nat) :=
    match err with
    | some _ => .ok ([], uint64Add 0 1)
    | none =>
      match fanOut parseFloat c.aws regions.Regions ([], 0) with
      | .error p => .error p
      | .ok (queues, errorCount) => .ok (interleave c.sched queues, errorCount)
  match fetched with
  | .error p => .error p
  | .ok (spotScrapes, errorCount) =>
    .ok ({ e1 with scrapeErrors := errorCount, duration := c.finish - c.start }, spotScrapes)

/-! ## Snapshot aggregator: `setSpotMarketMetrics` -/

/-- The label map `setSpotMarketMetrics` builds from a received value. -/
def labelsOf {F : Type} (scr : SpotMarketScrapeResult F) : Labels :=
  { region := scr.Region, az := scr.AvailabilityZone, product := scr.Product,
    instance_type := scr.InstanceType }

/-- The method `setSpotMarketMetrics`, run on the values received until the
channel is closed. -/
def setSpotMarketMetrics {F : Type} (e : Exporter F) (scrapes : List (SpotMarketScrapeResult F)) :
    Exporter F :=
  { e with spotMarketPrices :=
      scrapes.foldl (fun g scr => GaugeVec.withSet g (labelsOf scr) scr.Price) e.spotMarketPrices }

/-! ## Collection coordinator: `initGauges`, `Collect` -/

/-- The method `initGauges`: a new, empty gauge vector. -/
def initGauges {F : Type} (e : Exporter F) : Exporter F :=
  { e with spotMarketPrices := [] }

/-- The method `Collect`, run under the exporter's lock: the exporter after it
and what it sends to the registry. -/
def Collect {F : Type} (parseFloat : String → Option F) (e : Exporter F) (c : Cycle) :
    Except GoPanic (Exporter F × Collected F) :=
  match scrape parseFloat (initGauges e) c with
  | .error p => .error p
  | .ok (e1, spotScrapes) =>
    let e2 := setSpotMarketMetrics e1 spotScrapes
    .ok (e2, ⟨e2.duration, e2.totalScrapes, e2.scrapeErrors, e2.spotMarketPrices⟩)

/-! ## Vocabulary of the statements -/

/-- The records the provider returns for `region`. -/
def records (aws : Aws) (region : String) : List ec2.SpotPrice :=
  (aws.DescribeSpotPriceHistory region).1.SpotPriceHistory

/-- The listing call for `region` returns an error. -/
def listingFailed (aws : Aws) (region : String) : Bool :=
  (aws.DescribeSpotPriceHistory region).2.isSome

/-- The price field is present and `parseFloat` accepts it. -/
def priced {F : Type} (parseFloat : String → Option F) (sp : ec2.SpotPrice) : Bool :=
  match sp.SpotPrice with
  | some s => (parseFloat s).isSome
  | none => false

/-- The price field is present and `parseFloat` rejects it. -/
def unparseable {F : Type} (parseFloat : String → Option F) (sp : ec2.SpotPrice) : Bool :=
  match sp.SpotPrice with
  | some s => (parseFloat s).isNone
  | none => false

/-- Availability zone, product description and instance type are all present. -/
def described (sp : ec2.SpotPrice) : Bool :=
  sp.AvailabilityZone.isSome && sp.ProductDescription.isSome && sp.InstanceType.isSome

/-- The loop iteration for `sp` dereferences no nil pointer: a record whose
price parses has its three other fields. -/
def derefSafe {F : Type} (parseFloat : String → Option F) (sp : ec2.SpotPrice) : Bool :=
  !priced parseFloat sp || described sp

/-- Every record returned for `region` is `derefSafe`. -/
def fetchSafe {F : Type} (parseFloat : String → Option F) (aws : Aws) (region : String) : Bool :=
  (records aws region).all (derefSafe parseFloat)

/-- The sample that stands for a record in `region`: defined when all four
fields are present and the price parses. -/
def sampleOf {F : Type} (parseFloat : String → Option F) (region : String)
    (sp : ec2.SpotPrice) : Option (SpotMarketScrapeResult F) :=
  match sp.SpotPrice, sp.AvailabilityZone, sp.ProductDescription, sp.InstanceType with
  | some s, some az, some product, some ty =>
    (parseFloat s).map fun v => ⟨region, az, ty, product, v⟩
  | _, _, _, _ => none

/-- The samples of a region: one for each record that has one, in record order. -/
def regionSamples {F : Type} (parseFloat : String → Option F) (aws : Aws) (region : String) :
    List (SpotMarketScrapeResult F) :=
  (records aws region).filterMap (sampleOf parseFloat region)

/-- The errors of a region: one for a failed listing call, one for each record
whose price is present and does not parse. -/
def regionErrors {F : Type} (parseFloat : String → Option F) (aws : Aws) (region : String) : Nat :=
  (if listingFailed aws region then 1 else 0) + (records aws region).countP (unparseable parseFloat)

/-- The three fields of a record that, with the region, label its sample. -/
def zoneProductType (sp : ec2.SpotPrice) : Option String × Option String × Option String :=
  (sp.AvailabilityZone, sp.ProductDescription, sp.InstanceType)

/-- The names of the discovered regions. -/
def regionNames (aws : Aws) : List String :=
  aws.DescribeRegions.1.Regions.filterMap fun r => r.RegionName

/-- No dereference of the cycle hits nil: either discovery fails, or every
region has its name and every region fetch is `fetchSafe`. -/
def cycleSafe {F : Type} (parseFloat : String → Option F) (aws : Aws) : Bool :=
  aws.DescribeRegions.2.isSome ||
    (aws.DescribeRegions.1.Regions.all (fun r => r.RegionName.isSome) &&
      (regionNames aws).all (fetchSafe parseFloat aws))

/-- The error count a region fetch reports to `scrape` through its return
value: none for nil, the count of a `spotMarketScrapeError`. -/
def reportedCount : Option GoError → Nat
  | none => 0
  | some (.scrapeError e) => e.count
  | some (.other _) => 1

/-- The price of the last of `scrapes` whose labels are `k`, if there is one. -/
def lastPrice {F : Type} (scrapes : List (SpotMarketScrapeResult F)) (k : Labels) : Option F :=
  ((scrapes.filter fun scr => labelsOf scr = k).getLast?).map fun scr => scr.Price

/-- The samples of the cycle, in the order of hand-over. -/
def cycleSamples {F : Type} (parseFloat : String → Option F) (c : Cycle) :
    List (SpotMarketScrapeResult F) :=
  match c.aws.DescribeRegions.2 with
  | some _ => []
  | none => interleave c.sched ((regionNames c.aws).map (regionSamples parseFloat c.aws))

/-! ## Concrete provider answers -/

/-- A provider that discovers the regions `names` and answers the listing call
for a region with `history`, both without error. -/
def awsOf (names : List String) (history : String → List ec2.SpotPrice) : Aws :=
  { DescribeRegions := (⟨names.map fun n => ⟨some n⟩⟩, none),
    DescribeSpotPriceHistory := fun region => (⟨history region⟩, none) }

/-- A provider whose `DescribeRegions` call fails. -/
def awsDiscoveryFailure : Aws :=
  { DescribeRegions := (⟨[]⟩, some ⟨"RequestError: send request failed"⟩),
    DescribeSpotPriceHistory := fun _ => (⟨[]⟩, none) }

/-- A record with price "0.0123" in zone "a-1". -/
def recordMicro : ec2.SpotPrice :=
  ⟨some "0.0123", some "a-1", some "Linux/UNIX", some "t3.micro"⟩

/-- A record whose price field is "abc". -/
def recordAbc : ec2.SpotPrice :=
  ⟨some "abc", some "a-1", some "Linux/UNIX", some "t3.micro"⟩

/-- A record with a price and no availability zone. -/
def recordNoZone : ec2.SpotPrice :=
  ⟨some "0.0123", none, some "Linux/UNIX", some "t3.micro"⟩

/-- A record without price field. -/
def recordNoPrice : ec2.SpotPrice :=
  ⟨none, some "a-1", some "Linux/UNIX", some "t3.micro"⟩

/-- Scenario A: region "a" has one record, region "b" has none. -/
def scenarioA : Cycle :=
  { aws := awsOf ["a", "b"] fun region => if region = "a" then [recordMicro] else [],
    start := 0, finish := 1500000000, sched := [] }

/-- Scenario B: one region, one record with price "abc". -/
def scenarioB : Cycle :=
  { aws := awsOf ["a"] fun _ => [recordAbc], start := 0, finish := 1500000000, sched := [] }

/-- Scenario C: region discovery fails. -/
def scenarioC : Cycle :=
  { aws := awsDiscoveryFailure, start := 0, finish := 1500000000, sched := [] }

/-- An exporter that has completed seven cycles and holds a series of a region
"z" from the last one. -/
def exporterAfterSeven : Exporter Decimal :=
  { spotMarketPrices := [(⟨"z", "z-1", "Windows", "m5.large"⟩, ⟨5, 1⟩)],
    duration := 1, scrapeErrors := 3, totalScrapes := 7 }

/-- The sample of `recordMicro` in region "a". -/
def sampleMicro : SpotMarketScrapeResult Decimal :=
  ⟨"a", "a-1", "t3.micro", "Linux/UNIX", ⟨123, 4⟩⟩

/-- A provider whose listing call for every region fails and still carries
three records: one with price "abc", one without price, and `recordMicro`. -/
def awsMixed : Aws :=
  { DescribeRegions := (⟨[⟨some "a"⟩]⟩, none),
    DescribeSpotPriceHistory := fun _ =>
      (⟨[recordAbc, recordNoPrice, recordMicro]⟩, some ⟨"RequestLimitExceeded"⟩) }

/-- The labels of a sample of `region` whose record has the fields `t`. -/
def labelsOfFields (region : String) (t : Option String × Option String × Option String) :
    Labels :=
  ⟨region, t.1.getD "", t.2.1.getD "", t.2.2.getD ""⟩

/-! ## Region price fetcher: lemmas -/

theorem uint64Add_lt (a b : Nat) : uint64Add a b < uint64Size := by
  unfold uint64Add
  exact Nat.mod_lt _ (by decide)

theorem sampleOf_eq_none_of_not_priced {F : Type} (parseFloat : String → Option F)
    (region : String) (sp : ec2.SpotPrice) (h : priced parseFloat sp = false) :
    sampleOf parseFloat region sp = none := by
  rcases sp with ⟨p, az, pr, ty⟩
  cases p with
  | none => simp [sampleOf]
  | some s =>
    cases hp : parseFloat s with
    | none => cases az <;> cases pr <;> cases ty <;> simp [sampleOf, hp]
    | some v => simp [priced, hp] at h

/-- One loop iteration on a record that is `derefSafe`: the record's sample, if
it has one, is sent, and `errorCount` goes up by one exactly when the price is
present and does not parse. -/
theorem scrapeRecord_of_derefSafe {F : Type} (parseFloat : String → Option F)
    (region : String) (st : FetchState F) (sp : ec2.SpotPrice)
    (h : derefSafe parseFloat sp = true) :
    scrapeRecord parseFloat region st sp =
      .ok ⟨st.sent ++ (sampleOf parseFloat region sp).toList,
        if unparseable parseFloat sp then uint64Add st.errorCount 1 else st.errorCount⟩ := by
  rcases sp with ⟨p, az, pr, ty⟩
  cases p with
  | none => simp [scrapeRecord, sampleOf, unparseable]
  | some s =>
    cases hp : parseFloat s with
    | none =>
      cases az <;> cases pr <;> cases ty <;> simp [scrapeRecord, sampleOf, unparseable, hp]
    | some v =>
      cases az <;> cases pr <;> cases ty <;>
        simp_all [scrapeRecord, sampleOf, unparseable, derefSafe, priced, described, deref]

/-- One loop iteration on a record that is not `derefSafe` panics. -/
theorem scrapeRecord_of_not_derefSafe {F : Type} (parseFloat : String → Option F)
    (region : String) (st : FetchState F) (sp : ec2.SpotPrice)
    (h : derefSafe parseFloat sp = false) :
    scrapeRecord parseFloat region st sp = .error .nilDereference := by
  rcases sp with ⟨p, az, pr, ty⟩
  cases p with
  | none => simp [derefSafe, priced] at h
  | some s =>
    cases hp : parseFloat s with
    | none => simp [derefSafe, priced, hp] at h
    | some v =>
      cases az <;> cases pr <;> cases ty <;>
        simp_all [scrapeRecord, derefSafe, priced, described, deref]

/-- The loop over records that are all `derefSafe` runs to its end. -/
theorem scrapeRecords_of_derefSafe {F : Type} (parseFloat : String → Option F)
    (region : String) (recs : List ec2.SpotPrice) (st : FetchState F)
    (h : recs.all (derefSafe parseFloat) = true) (hst : st.errorCount < uint64Size) :
    scrapeRecords parseFloat region recs st =
      .ok ⟨st.sent ++ recs.filterMap (sampleOf parseFloat region),
        (st.errorCount + recs.countP (unparseable parseFloat)) % uint64Size⟩ := by
  induction recs generalizing st with
  | nil => simp [scrapeRecords, Nat.mod_eq_of_lt hst]
  | cons sp rest ih =>
    simp only [List.all_cons, Bool.and_eq_true] at h
    rw [scrapeRecords, scrapeRecord_of_derefSafe parseFloat region st sp h.1]
    simp only
    rw [ih _ h.2]
    · congr 2
      · cases hs : sampleOf parseFloat region sp <;> simp [List.filterMap_cons, hs]
      · cases hu : unparseable parseFloat sp
        · simp [List.countP_cons, hu]
        · simp only [if_true, uint64Add, List.countP_cons, hu]
          rw [Nat.add_mod, Nat.mod_mod, ← Nat.add_mod]
          congr 1
          omega
    · show (if unparseable parseFloat sp = true then uint64Add st.errorCount 1
        else st.errorCount) < uint64Size
      split
      · exact uint64Add_lt _ _
      · exact hst

/-- The loop panics as soon as one record is not `derefSafe`. -/
theorem scrapeRecords_of_not_derefSafe {F : Type} (parseFloat : String → Option F)
    (region : String) (recs : List ec2.SpotPrice) (st : FetchState F)
    (h : recs.all (derefSafe parseFloat) = false) :
    scrapeRecords parseFloat region recs st = .error .nilDereference := by
  induction recs generalizing st with
  | nil => simp at h
  | cons sp rest ih =>
    cases hsp : derefSafe parseFloat sp with
    | false => rw [scrapeRecords, scrapeRecord_of_not_derefSafe parseFloat region st sp hsp]
    | true =>
      have hrest : rest.all (derefSafe parseFloat) = false := by
        simpa [List.all_cons, hsp] using h
      rw [scrapeRecords, scrapeRecord_of_derefSafe parseFloat region st sp hsp]
      exact ih _ hrest

/-- The state of a region fetch before its return statement. -/
theorem scrapeLoop_of_fetchSafe {F : Type} (parseFloat : String → Option F) (aws : Aws)
    (region : String) (h : fetchSafe parseFloat aws region = true) :
    scrapeLoop parseFloat aws region =
      .ok ⟨regionSamples parseFloat aws region,
        regionErrors parseFloat aws region % uint64Size⟩ := by
  have h' : (aws.DescribeSpotPriceHistory region).1.SpotPriceHistory.all
      (derefSafe parseFloat) = true := h
  have key : ∀ x : Option AwsError,
      (match x with
        | some _ => uint64Add 0 1
        | none => 0) = (if x.isSome = true then 1 else 0) := by
    intro x
    cases x <;> simp [uint64Add, uint64Size]
  unfold scrapeLoop
  simp only
  rw [scrapeRecords_of_derefSafe parseFloat region _ _ h']
  · simp only [List.nil_append, regionSamples, regionErrors, records, listingFailed, key]
  · rw [key]
    split <;> simp [uint64Size]

/-- A region fetch that dereferences no nil pointer returns. -/
theorem scrapeSpotMarketPrice_of_fetchSafe {F : Type} (parseFloat : String → Option F)
    (aws : Aws) (region : String) (h : fetchSafe parseFloat aws region = true) :
    scrapeSpotMarketPrice parseFloat aws region =
      .ok (regionSamples parseFloat aws region,
        scrapeReturn (regionErrors parseFloat aws region % uint64Size)) := by
  simp [scrapeSpotMarketPrice, scrapeLoop_of_fetchSafe parseFloat aws region h]

/-- A region fetch that meets a record that is not `derefSafe` panics. -/
theorem scrapeSpotMarketPrice_of_not_fetchSafe {F : Type} (parseFloat : String → Option F)
    (aws : Aws) (region : String) (h : fetchSafe parseFloat aws region = false) :
    scrapeSpotMarketPrice parseFloat aws region = .error .nilDereference := by
  have : scrapeLoop parseFloat aws region = .error .nilDereference := by
    unfold scrapeLoop
    exact scrapeRecords_of_not_derefSafe parseFloat region _ _ h
  simp [scrapeSpotMarketPrice, this]

/-- A record with all four fields present and a price that parses: the loop
iteration sends exactly one sample, with the parsed price, the region, and the
record's zone, product and type, and leaves `errorCount` as it is. -/
theorem scrapeRecord_of_described {F : Type} (parseFloat : String → Option F)
    (region : String) (st : FetchState F) (s az product ty : String) (v : F)
    (hv : parseFloat s = some v) :
    scrapeRecord parseFloat region st ⟨some s, some az, some product, some ty⟩ =
      .ok ⟨st.sent ++ [⟨region, az, ty, product, v⟩], st.errorCount⟩ := by
  simp [scrapeRecord, hv, deref]

/-- The labels of the samples of a region come from the fields of its records
whose price parses. -/
theorem labels_regionSamples {F : Type} (parseFloat : String → Option F) (region : String)
    (recs : List ec2.SpotPrice) (h : recs.all (derefSafe parseFloat) = true) :
    (recs.filterMap (sampleOf parseFloat region)).map labelsOf =
      ((recs.filter (priced parseFloat)).map zoneProductType).map (labelsOfFields region) := by
  induction recs with
  | nil => simp
  | cons sp rest ih =>
    simp only [List.all_cons, Bool.and_eq_true] at h
    have ih' := ih h.2
    rcases sp with ⟨p, az, pr, ty⟩
    cases p with
    | none => simpa [List.filterMap_cons, List.filter_cons, sampleOf, priced] using ih'
    | some s =>
      cases hp : parseFloat s with
      | none =>
        have hs : sampleOf parseFloat region ⟨some s, az, pr, ty⟩ = none :=
          sampleOf_eq_none_of_not_priced parseFloat region _ (by simp [priced, hp])
        simpa [List.filterMap_cons, List.filter_cons, hs, priced, hp] using ih'
      | some v =>
        have hd := h.1
        cases az <;> cases pr <;> cases ty <;>
          simp_all [derefSafe, priced, described, List.filterMap_cons, List.filter_cons,
            sampleOf, labelsOf, labelsOfFields, zoneProductType]

/-- On the fields of records with all three present, `labelsOfFields` is
injective. -/
theorem labelsOfFields_inj (region : String)
    (t u : Option String × Option String × Option String)
    (ht : t.1.isSome ∧ t.2.1.isSome ∧ t.2.2.isSome)
    (hu : u.1.isSome ∧ u.2.1.isSome ∧ u.2.2.isSome)
    (h : labelsOfFields region t = labelsOfFields region u) : t = u := by
  rcases t with ⟨_ | a, _ | b, _ | c⟩ <;> simp at ht
  rcases u with ⟨_ | a', _ | b', _ | c'⟩ <;> simp at hu
  simpa [labelsOfFields] using h

/-! ## Region price fetcher: the claims -/

/-- C1 (the code falls short of it): the record `recordNoZone` has a price field
that is present and parses, and no availability zone; the fetch of its region
emits no sample for it but panics on the nil pointer. -/
theorem scrapeSpotMarketPrice_absent_zone_panics :
    priced parseDecimal recordNoZone = true ∧
    scrapeSpotMarketPrice parseDecimal (awsOf ["a"] fun _ => [recordNoZone]) "a" =
      .error .nilDereference :=
  ⟨by decide, rfl⟩

/-- C2: for every listing outcome and every list of records on which the fetch
runs to its return statement (`fetchSafe`: no dereference hits nil; the list has
the length of a Go slice, so the `uint64` counter does not wrap), `errorCount`
ends as one if the listing call failed (else zero) plus the number of records
whose price is present and does not parse, and the values sent are exactly the
samples of the records whose price parses.  Record by record: a record without
price changes nothing; a record with an unparseable price adds one to
`errorCount` and sends nothing; a record whose price parses leaves `errorCount`
as it is. -/
theorem scrapeSpotMarketPrice_error_count {F : Type} (parseFloat : String → Option F)
    (aws : Aws) (region : String)
    (hsafe : fetchSafe parseFloat aws region = true)
    (hlen : (records aws region).length < 2 ^ 63) :
    (∃ st, scrapeLoop parseFloat aws region = .ok st ∧
      st.errorCount = (if listingFailed aws region then 1 else 0) +
        (records aws region).countP (unparseable parseFloat) ∧
      st.sent = (records aws region).filterMap (sampleOf parseFloat region)) ∧
    (∀ (st : FetchState F) (sp : ec2.SpotPrice), sp.SpotPrice = none →
      scrapeRecord parseFloat region st sp = .ok st ∧
        sampleOf parseFloat region sp = none ∧ unparseable parseFloat sp = false) ∧
    (∀ (st : FetchState F) (sp : ec2.SpotPrice), unparseable parseFloat sp = true →
      scrapeRecord parseFloat region st sp = .ok ⟨st.sent, uint64Add st.errorCount 1⟩ ∧
        sampleOf parseFloat region sp = none) ∧
    (∀ (st st' : FetchState F) (sp : ec2.SpotPrice), priced parseFloat sp = true →
      scrapeRecord parseFloat region st sp = .ok st' →
        st'.errorCount = st.errorCount ∧ unparseable parseFloat sp = false) := by
  refine ⟨⟨_, scrapeLoop_of_fetchSafe parseFloat aws region hsafe, ?_, rfl⟩, ?_, ?_, ?_⟩
  · show regionErrors parseFloat aws region % uint64Size = regionErrors parseFloat aws region
    apply Nat.mod_eq_of_lt
    have h1 : (records aws region).countP (unparseable parseFloat) ≤ (records aws region).length :=
      List.countP_le_length _
    have h2 : (if listingFailed aws region = true then 1 else 0) ≤ 1 := by split <;> simp
    have h3 : (2 : Nat) ^ 63 + 1 < uint64Size := by decide
    unfold regionErrors
    omega
  · intro st sp hsp
    rcases sp with ⟨p, az, pr, ty⟩
    simp only at hsp
    subst hsp
    simp [scrapeRecord, sampleOf, unparseable]
  · intro st sp hsp
    have hnp : priced parseFloat sp = false := by
      rcases sp with ⟨p, az, pr, ty⟩
      cases p with
      | none => simp [unparseable] at hsp
      | some s => cases hp : parseFloat s <;> simp_all [unparseable, priced]
    have hs := sampleOf_eq_none_of_not_priced parseFloat region sp hnp
    have hd : derefSafe parseFloat sp = true := by simp [derefSafe, hnp]
    rw [scrapeRecord_of_derefSafe parseFloat region st sp hd]
    simp [hs, hsp]
  · intro st st' sp hsp hrun
    have hu : unparseable parseFloat sp = false := by
      rcases sp with ⟨p, az, pr, ty⟩
      cases p with
      | none => simp [priced] at hsp
      | some s => cases hp : parseFloat s <;> simp_all [unparseable, priced]
    refine ⟨?_, hu⟩
    cases hd : derefSafe parseFloat sp with
    | false => rw [scrapeRecord_of_not_derefSafe parseFloat region st sp hd] at hrun; cases hrun
    | true =>
      rw [scrapeRecord_of_derefSafe parseFloat region st sp hd] at hrun
      cases hrun
      simp [hu]

/-- C2 at a concrete input: the listing call fails and still carries a record
with price "abc", a record without price and `recordMicro`; the fetch counts two
errors and sends the one sample. -/
theorem scrapeSpotMarketPrice_error_count_witness :
    fetchSafe parseDecimal awsMixed "a" = true ∧
    ∃ st, scrapeLoop parseDecimal awsMixed "a" = .ok st ∧ st.errorCount = 2 ∧
      st.sent = [sampleMicro] := by
  refine ⟨by decide, ?_⟩
  obtain ⟨⟨st, h1, h2, h3⟩, _⟩ :=
    scrapeSpotMarketPrice_error_count parseDecimal awsMixed "a" (by decide) (by decide)
  exact ⟨st, h1, h2.trans (by decide), h3.trans rfl⟩

/-- C3: a region fetch that runs to its return statement (`fetchSafe`) returns
nil exactly when the `errorCount` it accumulated is zero; the error it returns
otherwise is a `spotMarketScrapeError` whose count is that `errorCount`, which
is then not zero. -/
theorem scrapeSpotMarketPrice_returns_nil_iff {F : Type} (parseFloat : String → Option F)
    (aws : Aws) (region : String) (hsafe : fetchSafe parseFloat aws region = true) :
    ∃ st r, scrapeLoop parseFloat aws region = .ok st ∧
      scrapeSpotMarketPrice parseFloat aws region = .ok (st.sent, r) ∧
      (r = none ↔ st.errorCount = 0) ∧
      (∀ err, r = some err → err = .scrapeError ⟨st.errorCount⟩ ∧ st.errorCount ≠ 0) := by
  have hloop := scrapeLoop_of_fetchSafe parseFloat aws region hsafe
  refine ⟨_, scrapeReturn (regionErrors parseFloat aws region % uint64Size), hloop, ?_, ?_, ?_⟩
  · simp [scrapeSpotMarketPrice, hloop]
  · simp only [scrapeReturn]
    split <;> simp <;> omega
  · intro err herr
    simp only [scrapeReturn] at herr
    split at herr
    · rename_i hpos
      cases herr
      exact ⟨rfl, Nat.pos_iff_ne_zero.mp hpos⟩
    · cases herr

/-- C3 at concrete inputs: the fetch of `awsMixed` returns an error with count
two. -/
theorem scrapeSpotMarketPrice_returns_nil_iff_witness :
    fetchSafe parseDecimal awsMixed "a" = true ∧
    scrapeSpotMarketPrice parseDecimal awsMixed "a" =
      .ok ([sampleMicro], some (.scrapeError ⟨2⟩)) ∧
    ∃ st r, scrapeLoop parseDecimal awsMixed "a" = .ok st ∧
      scrapeSpotMarketPrice parseDecimal awsMixed "a" = .ok (st.sent, r) ∧
      (r = none ↔ st.errorCount = 0) ∧
      (∀ err, r = some err → err = .scrapeError ⟨st.errorCount⟩ ∧ st.errorCount ≠ 0) :=
  ⟨by decide, rfl, scrapeSpotMarketPrice_returns_nil_iff parseDecimal awsMixed "a" (by decide)⟩

/-- C9 fails as stated: a region whose listing holds the same record twice gets
two samples with the same labels. -/
theorem scrapeSpotMarketPrice_repeats_labels :
    scrapeSpotMarketPrice parseDecimal (awsOf ["a"] fun _ => [recordMicro, recordMicro]) "a" =
      .ok ([sampleMicro, sampleMicro], none) ∧
    ¬ ([sampleMicro, sampleMicro].map labelsOf).Nodup :=
  ⟨rfl, by decide⟩

/-- C9 amended: a region fetch that runs to its return statement (`fetchSafe`)
has sent samples whose labels are pairwise distinct exactly when the (zone,
product, type) fields of the records whose price parses are pairwise distinct:
nothing in the fetch removes repetitions. -/
theorem scrapeSpotMarketPrice_labels_nodup_iff {F : Type} (parseFloat : String → Option F)
    (aws : Aws) (region : String) (hsafe : fetchSafe parseFloat aws region = true) :
    ∃ samples r, scrapeSpotMarketPrice parseFloat aws region = .ok (samples, r) ∧
      ((samples.map labelsOf).Nodup ↔
        (((records aws region).filter (priced parseFloat)).map zoneProductType).Nodup) := by
  refine ⟨_, _, scrapeSpotMarketPrice_of_fetchSafe parseFloat aws region hsafe, ?_⟩
  have hall : (records aws region).all (derefSafe parseFloat) = true := hsafe
  unfold regionSamples
  rw [labels_regionSamples parseFloat region _ hall]
  constructor
  · exact List.Nodup.of_map _
  · intro hnd
    refine List.Nodup.map_on ?_ hnd
    intro t ht u hu htu
    have hsome : ∀ w ∈ ((records aws region).filter (priced parseFloat)).map zoneProductType,
        w.1.isSome ∧ w.2.1.isSome ∧ w.2.2.isSome := by
      intro w hw
      rw [List.mem_map] at hw
      obtain ⟨sp, hsp, rfl⟩ := hw
      rw [List.mem_filter] at hsp
      have hd : derefSafe parseFloat sp = true := (List.all_eq_true.mp hall) sp hsp.1
      simp only [derefSafe, hsp.2, Bool.not_true, Bool.false_or, described,
        Bool.and_eq_true] at hd
      exact ⟨hd.1.1, hd.1.2, hd.2⟩
    exact labelsOfFields_inj region t u (hsome t ht) (hsome u hu) htu

/-- C9 amended, at concrete inputs: `recordMicro` next to the same record in
zone "a-2" gives two samples with distinct labels. -/
theorem scrapeSpotMarketPrice_labels_nodup_iff_witness :
    fetchSafe parseDecimal
      (awsOf ["a"] fun _ => [recordMicro, { recordMicro with AvailabilityZone := some "a-2" }])
      "a" = true ∧
    ∃ samples r, scrapeSpotMarketPrice parseDecimal
      (awsOf ["a"] fun _ => [recordMicro, { recordMicro with AvailabilityZone := some "a-2" }])
      "a" = .ok (samples, r) ∧ (samples.map labelsOf).Nodup := by
  refine ⟨by decide, ?_⟩
  obtain ⟨samples, r, hrun, hiff⟩ := scrapeSpotMarketPrice_labels_nodup_iff parseDecimal
    (awsOf ["a"] fun _ => [recordMicro, { recordMicro with AvailabilityZone := some "a-2" }])
    "a" (by decide)
  exact ⟨samples, r, hrun, hiff.mpr (by decide)⟩

/-! ## Scrape orchestrator: lemmas -/

theorem popAt_perm {α : Type} (i : Nat) (qs qs' : List (List α)) (x : α)
    (h : popAt i qs = some (x, qs')) : qs.flatten.Perm (x :: qs'.flatten) := by
  induction qs generalizing i qs' with
  | nil => simp [popAt] at h
  | cons q rest ih =>
    cases i with
    | zero =>
      cases q with
      | nil => simp [popAt] at h
      | cons y q' =>
        simp only [popAt, Option.some.injEq, Prod.mk.injEq] at h
        obtain ⟨rfl, rfl⟩ := h
        simp
    | succ j =>
      simp only [popAt] at h
      cases hp : popAt j rest with
      | none => simp [hp] at h
      | some r =>
        obtain ⟨y, rest'⟩ := r
        simp only [hp, Option.some.injEq, Prod.mk.injEq] at h
        obtain ⟨rfl, rfl⟩ := h
        have hrest := ih j rest' hp
        simp only [List.flatten_cons]
        exact (List.Perm.append_left q hrest).trans List.perm_middle

/-- Whatever the order of hand-over, the receiver gets every value of every
sender exactly once. -/
theorem interleave_perm {α : Type} (sched : List Nat) (qs : List (List α)) :
    (interleave sched qs).Perm qs.flatten := by
  induction sched generalizing qs with
  | nil => simp [interleave]
  | cons i rest ih =>
    simp only [interleave]
    cases hp : popAt i qs with
    | none => simpa using ih qs
    | some r =>
      obtain ⟨x, qs'⟩ := r
      simp only
      exact ((ih qs').cons x).trans (popAt_perm i qs qs' x hp).symm

/-- Every order of hand-over is the one of some `sched`. -/
theorem interleave_complete {α : Type} (qs : List (List α)) (m : List α)
    (h : Handover qs m) : ∃ sched, interleave sched qs = m := by
  induction h with
  | done qs hempty => exact ⟨[], by simpa [interleave] using hempty⟩
  | take i qs qs' x m hpop _ ih =>
    obtain ⟨sched, hs⟩ := ih
    exact ⟨i :: sched, by simp [interleave, hpop, hs]⟩

theorem Handover.skip_empty {α : Type} (qs : List (List α)) (m : List α)
    (h : Handover qs m) : Handover ([] :: qs) m := by
  induction h with
  | done qs hempty => exact Handover.done _ (by simpa using hempty)
  | take i qs qs' x m hpop _ ih =>
    exact Handover.take (i + 1) _ ([] :: qs') x m (by simp [popAt, hpop]) ih

theorem Handover.first_sender {α : Type} (q : List α) (qs : List (List α)) (m : List α)
    (h : Handover qs m) : Handover (q :: qs) (q ++ m) := by
  induction q with
  | nil => exact Handover.skip_empty qs m h
  | cons x q ih => exact Handover.take 0 _ (q :: qs) x (q ++ m) (by simp [popAt]) ih

theorem Handover.flatten {α : Type} (qs : List (List α)) : Handover qs qs.flatten := by
  induction qs with
  | nil => exact Handover.done [] rfl
  | cons q rest ih => exact Handover.first_sender q rest _ ih

/-- Every `sched` gives an order of hand-over. -/
theorem interleave_sound {α : Type} (sched : List Nat) (qs : List (List α)) :
    Handover qs (interleave sched qs) := by
  induction sched generalizing qs with
  | nil => exact Handover.flatten qs
  | cons i rest ih =>
    simp only [interleave]
    cases hp : popAt i qs with
    | none => exact ih qs
    | some r =>
      obtain ⟨x, qs'⟩ := r
      exact Handover.take i qs qs' x _ hp (ih qs')

theorem reportedCount_scrapeReturn (n : Nat) : reportedCount (scrapeReturn n) = n := by
  unfold scrapeReturn
  split
  · rfl
  · simp only [reportedCount]
    omega

/-- The goroutine of a region adds to the shared counter what the fetch reports. -/
theorem regionTask_eq {F : Type} (parseFloat : String → Option F) (aws : Aws) (region : String)
    (sent : List (SpotMarketScrapeResult F)) (r : Option GoError)
    (h : scrapeSpotMarketPrice parseFloat aws region = .ok (sent, r)) :
    regionTask parseFloat aws region = .ok (sent, reportedCount r) := by
  unfold regionTask
  rw [h]
  cases r with
  | none => rfl
  | some err => cases err <;> rfl

/-- The fan-out over regions that all have a name and a fetch that dereferences
no nil pointer. -/
theorem fanOut_of_safe {F : Type} (parseFloat : String → Option F) (aws : Aws)
    (regions : List ec2.Region) (acc : List (List (SpotMarketScrapeResult F)) × Nat)
    (hnames : regions.all (fun r => r.RegionName.isSome) = true)
    (hsafe : (regions.filterMap fun r => r.RegionName).all (fetchSafe parseFloat aws) = true)
    (hacc : acc.2 < uint64Size) :
    fanOut parseFloat aws regions acc =
      .ok (acc.1 ++ (regions.filterMap fun r => r.RegionName).map (regionSamples parseFloat aws),
        (acc.2 + ((regions.filterMap fun r => r.RegionName).map
          (regionErrors parseFloat aws)).sum) % uint64Size) := by
  induction regions generalizing acc with
  | nil => simp [fanOut, Nat.mod_eq_of_lt hacc]
  | cons r rest ih =>
    rcases r with ⟨name⟩
    cases name with
    | none => simp at hnames
    | some region =>
      simp only [List.all_cons, Option.isSome_some, Bool.true_and] at hnames
      simp only [List.filterMap_cons, List.all_cons, Bool.and_eq_true] at hsafe
      have htask := regionTask_eq parseFloat aws region _ _
        (scrapeSpotMarketPrice_of_fetchSafe parseFloat aws region hsafe.1)
      rw [reportedCount_scrapeReturn] at htask
      simp only [fanOut, deref, htask]
      rw [ih _ hnames hsafe.2 (uint64Add_lt _ _)]
      simp only [List.filterMap_cons, List.map_cons, List.sum_cons, List.append_assoc,
        List.singleton_append, uint64Add]
      congr 2
      rw [Nat.add_mod, Nat.mod_mod, Nat.add_mod acc.2, Nat.mod_mod, ← Nat.add_mod acc.2,
        ← Nat.add_mod, Nat.add_assoc]

/-- The cycle's error total before the reduction to `uint64`: one when
discovery fails, else the sum of the regions' errors. -/
theorem scrape_of_cycleSafe {F : Type} (parseFloat : String → Option F) (e : Exporter F)
    (c : Cycle) (hsafe : cycleSafe parseFloat c.aws = true) :
    scrape parseFloat e c =
      .ok (⟨e.spotMarketPrices, c.finish - c.start,
          (match c.aws.DescribeRegions.2 with
            | some _ => 1
            | none => ((regionNames c.aws).map (regionErrors parseFloat c.aws)).sum % uint64Size),
          e.totalScrapes + 1⟩,
        cycleSamples parseFloat c) := by
  unfold scrape cycleSamples
  cases hd : c.aws.DescribeRegions.2 with
  | some err => simp [uint64Add, uint64Size]
  | none =>
    simp only [cycleSafe, hd, Option.isSome_none, Bool.false_or, Bool.and_eq_true] at hsafe
    have h := fanOut_of_safe parseFloat c.aws c.aws.DescribeRegions.1.Regions ([], 0)
      hsafe.1 hsafe.2 (show (0 : Nat) < uint64Size by decide)
    simp only [List.nil_append, Nat.zero_add] at h
    simp only [h, regionNames]

/-- The fan-out panics when a region has no name or a region fetch meets a
record that is not `derefSafe`. -/
theorem fanOut_of_not_safe {F : Type} (parseFloat : String → Option F) (aws : Aws)
    (regions : List ec2.Region) (acc : List (List (SpotMarketScrapeResult F)) × Nat)
    (h : (regions.all (fun r => r.RegionName.isSome) &&
      (regions.filterMap fun r => r.RegionName).all (fetchSafe parseFloat aws)) = false) :
    fanOut parseFloat aws regions acc = .error .nilDereference := by
  induction regions generalizing acc with
  | nil => simp at h
  | cons r rest ih =>
    rcases r with ⟨name⟩
    cases name with
    | none => simp [fanOut, deref]
    | some region =>
      cases hf : fetchSafe parseFloat aws region with
      | false =>
        have hrun := scrapeSpotMarketPrice_of_not_fetchSafe parseFloat aws region hf
        simp [fanOut, deref, regionTask, hrun]
      | true =>
        have htask := regionTask_eq parseFloat aws region _ _
          (scrapeSpotMarketPrice_of_fetchSafe parseFloat aws region hf)
        have hrest : (rest.all (fun r => r.RegionName.isSome) &&
            (rest.filterMap fun r => r.RegionName).all (fetchSafe parseFloat aws)) = false := by
          simpa [List.filterMap_cons, hf] using h
        simp only [fanOut, deref, htask]
        exact ih _ hrest

/-- A cycle in which some dereference hits nil panics. -/
theorem scrape_of_not_cycleSafe {F : Type} (parseFloat : String → Option F) (e : Exporter F)
    (c : Cycle) (hsafe : cycleSafe parseFloat c.aws = false) :
    scrape parseFloat e c = .error .nilDereference := by
  unfold scrape
  cases hd : c.aws.DescribeRegions.2 with
  | some err => simp [cycleSafe, hd] at hsafe
  | none =>
    simp only [cycleSafe, hd, Option.isSome_none, Bool.false_or] at hsafe
    have h := fanOut_of_not_safe parseFloat c.aws c.aws.DescribeRegions.1.Regions ([], 0) hsafe
    simp only [h]

/-! ## Scrape orchestrator: the claims -/

/-- C4: when discovery succeeds and every region's fetch returns (`cycleSafe`),
with the regions' errors together below `2 ^ 64`, `scrape` sets the
`scrape_error` gauge to the sum, over the regions, of the error count the
region's fetch reported (zero for a fetch that returned nil); every value a
region's fetch sent is handed over on the channel, whatever the other regions
report and in whatever order the fetches get to send. -/
theorem scrape_error_total {F : Type} (parseFloat : String → Option F) (e : Exporter F)
    (c : Cycle) (hdisc : c.aws.DescribeRegions.2 = none)
    (hsafe : cycleSafe parseFloat c.aws = true)
    (hsum : ((regionNames c.aws).map (regionErrors parseFloat c.aws)).sum < uint64Size) :
    ∃ (results : List (List (SpotMarketScrapeResult F) × Option GoError))
      (e' : Exporter F) (spotScrapes : List (SpotMarketScrapeResult F)),
      List.Forall₂ (fun region res => scrapeSpotMarketPrice parseFloat c.aws region = .ok res)
        (regionNames c.aws) results ∧
      scrape parseFloat e c = .ok (e', spotScrapes) ∧
      e'.scrapeErrors = (results.map fun res => reportedCount res.2).sum ∧
      spotScrapes.Perm (results.map fun res => res.1).flatten := by
  have hrun := scrape_of_cycleSafe parseFloat e c hsafe
  simp only [hdisc, Nat.mod_eq_of_lt hsum] at hrun
  have hfetch : ∀ region ∈ regionNames c.aws, fetchSafe parseFloat c.aws region = true := by
    simp only [cycleSafe, hdisc, Option.isSome_none, Bool.false_or, Bool.and_eq_true] at hsafe
    exact List.all_eq_true.mp hsafe.2
  have hlt : ∀ region ∈ regionNames c.aws,
      regionErrors parseFloat c.aws region < uint64Size := by
    intro region hmem
    exact Nat.lt_of_le_of_lt (List.single_le_sum (by simp) _ (List.mem_map_of_mem _ hmem)) hsum
  refine ⟨(regionNames c.aws).map fun region =>
      (regionSamples parseFloat c.aws region,
        scrapeReturn (regionErrors parseFloat c.aws region)), _, _, ?_, hrun, ?_, ?_⟩
  · rw [List.forall₂_map_right_iff, List.forall₂_same]
    intro region hmem
    have h := scrapeSpotMarketPrice_of_fetchSafe parseFloat c.aws region (hfetch region hmem)
    rwa [Nat.mod_eq_of_lt (hlt region hmem)] at h
  · simp only [List.map_map]
    congr 1
    apply List.map_congr_left
    intro region _
    simp [reportedCount_scrapeReturn]
  · simp only [List.map_map, cycleSamples, hdisc]
    exact interleave_perm _ _

/-- C4 at scenario B: one region, one record with price "abc"; the error gauge
is set to one and nothing is handed over. -/
theorem scrape_error_total_witness :
    scenarioB.aws.DescribeRegions.2 = none ∧ cycleSafe parseDecimal scenarioB.aws = true ∧
    ∃ e' spotScrapes, scrape parseDecimal exporterAfterSeven scenarioB = .ok (e', spotScrapes) ∧
      e'.scrapeErrors = 1 ∧ spotScrapes = [] := by
  refine ⟨rfl, by decide, ?_⟩
  obtain ⟨results, e', spotScrapes, hres, hrun, hsum, hperm⟩ :=
    scrape_error_total parseDecimal exporterAfterSeven scenarioB rfl (by decide) (by decide)
  have hresults : results = [([], some (.scrapeError ⟨1⟩))] := by
    have hnames : regionNames scenarioB.aws = ["a"] := rfl
    rw [hnames] at hres
    cases hres with
    | cons h hrest =>
      cases hrest
      have h' : scrapeSpotMarketPrice parseDecimal scenarioB.aws "a" =
          .ok ([], some (.scrapeError ⟨1⟩)) := rfl
      rw [h'] at h
      cases h
      rfl
  subst hresults
  exact ⟨e', spotScrapes, hrun, hsum, List.perm_nil.mp hperm⟩

/-- C5: when region discovery fails, `scrape` returns with nothing handed over
on the channel and the error total one, whatever the listing calls would have
answered (none is made); `Collect` completes with an empty price family. -/
theorem scrape_discovery_failure {F : Type} (parseFloat : String → Option F) (e : Exporter F)
    (c : Cycle) (err : AwsError) (hdisc : c.aws.DescribeRegions.2 = some err) :
    scrape parseFloat e c =
      .ok (⟨e.spotMarketPrices, c.finish - c.start, 1, e.totalScrapes + 1⟩, []) ∧
    (∀ history : String → ec2.DescribeSpotPriceHistoryOutput × Option AwsError,
      scrape parseFloat e { c with aws := { c.aws with DescribeSpotPriceHistory := history } } =
        scrape parseFloat e c) ∧
    ∃ e' out, Collect parseFloat e c = .ok (e', out) ∧
      out.spotMarketPrices = [] ∧ out.scrapeErrors = 1 := by
  have hrun : ∀ c' : Cycle, c'.aws.DescribeRegions.2 = some err → ∀ e0 : Exporter F,
      scrape parseFloat e0 c' =
        .ok (⟨e0.spotMarketPrices, c'.finish - c'.start, 1, e0.totalScrapes + 1⟩, []) := by
    intro c' h e0
    unfold scrape
    simp [h, uint64Add, uint64Size]
  refine ⟨hrun c hdisc e, ?_, ?_⟩
  · intro history
    rw [hrun c hdisc e, hrun _ (by simpa using hdisc) e]
  · have hc : Collect parseFloat e c =
        .ok (⟨[], c.finish - c.start, 1, e.totalScrapes + 1⟩,
          ⟨c.finish - c.start, e.totalScrapes + 1, 1, []⟩) := by
      unfold Collect
      rw [hrun c hdisc]
      simp [setSpotMarketMetrics, initGauges]
    exact ⟨_, _, hc, rfl, rfl⟩

/-- C5 at scenario C, on an exporter that holds a series from an earlier cycle. -/
theorem scrape_discovery_failure_witness :
    scenarioC.aws.DescribeRegions.2 = some ⟨"RequestError: send request failed"⟩ ∧
    Collect parseDecimal exporterAfterSeven scenarioC =
      .ok (⟨[], 1500000000, 1, 8⟩, ⟨1500000000, 8, 1, []⟩) ∧
    scrape parseDecimal exporterAfterSeven scenarioC =
      .ok (⟨exporterAfterSeven.spotMarketPrices,
        scenarioC.finish - scenarioC.start, 1, exporterAfterSeven.totalScrapes + 1⟩, []) :=
  ⟨rfl, rfl,
    (scrape_discovery_failure parseDecimal exporterAfterSeven scenarioC _ rfl).1⟩

/-! ## Snapshot aggregator: lemmas -/

theorem GaugeVec.value_withSet {F : Type} (g : GaugeVec F) (k k' : Labels) (v : F) :
    GaugeVec.value (GaugeVec.withSet g k v) k' = if k = k' then some v else GaugeVec.value g k' := by
  induction g with
  | nil => simp [GaugeVec.withSet, GaugeVec.value]
  | cons kv rest ih =>
    obtain ⟨k0, v0⟩ := kv
    by_cases h0 : k0 = k
    · subst h0
      by_cases h1 : k0 = k' <;> simp [GaugeVec.withSet, GaugeVec.value, h1]
    · by_cases h1 : k0 = k'
      · subst h1
        have h2 : ¬ k = k0 := fun h => h0 h.symm
        simp [GaugeVec.withSet, GaugeVec.value, h0, h2]
      · simp [GaugeVec.withSet, GaugeVec.value, h0, h1, ih]

theorem GaugeVec.mem_keys_withSet {F : Type} (g : GaugeVec F) (k k' : Labels) (v : F) :
    k' ∈ (GaugeVec.withSet g k v).map Prod.fst ↔ k' = k ∨ k' ∈ g.map Prod.fst := by
  induction g with
  | nil => simp [GaugeVec.withSet]
  | cons kv rest ih =>
    obtain ⟨k0, v0⟩ := kv
    by_cases h0 : k0 = k
    · subst h0
      simp [GaugeVec.withSet]
    · simp only [GaugeVec.withSet, h0, if_false, List.map_cons, List.mem_cons, ih]
      tauto

/-- Setting a series keeps the vector free of repeated label sets. -/
theorem GaugeVec.nodup_keys_withSet {F : Type} (g : GaugeVec F) (k : Labels) (v : F)
    (h : (g.map Prod.fst).Nodup) : ((GaugeVec.withSet g k v).map Prod.fst).Nodup := by
  induction g with
  | nil => simp [GaugeVec.withSet]
  | cons kv rest ih =>
    obtain ⟨k0, v0⟩ := kv
    simp only [List.map_cons, List.nodup_cons] at h
    by_cases h0 : k0 = k
    · subst h0
      simpa [GaugeVec.withSet] using h
    · rw [GaugeVec.withSet, if_neg h0, List.map_cons, List.nodup_cons,
        GaugeVec.mem_keys_withSet]
      exact ⟨fun hmem => hmem.elim h0 h.1, ih h.2⟩

/-- Draining `scrapes` into a vector `g`: a series has the price of the last
sample with its labels, or its value in `g` when no sample has them. -/
theorem value_drain {F : Type} (scrapes : List (SpotMarketScrapeResult F)) (g : GaugeVec F)
    (k : Labels) :
    GaugeVec.value
      (scrapes.foldl (fun g scr => GaugeVec.withSet g (labelsOf scr) scr.Price) g) k =
      match lastPrice scrapes k with
      | some v => some v
      | none => GaugeVec.value g k := by
  induction scrapes generalizing g with
  | nil => simp [lastPrice]
  | cons scr rest ih =>
    rw [List.foldl_cons, ih]
    by_cases hk : labelsOf scr = k
    · have hfil : (List.filter (fun s => decide (labelsOf s = k)) (scr :: rest)) =
          scr :: List.filter (fun s => decide (labelsOf s = k)) rest := by
        simp [List.filter_cons, hk]
      have hlast : lastPrice (scr :: rest) k =
          some ((lastPrice rest k).getD scr.Price) := by
        unfold lastPrice
        rw [hfil, List.getLast?_cons]
        cases (List.filter (fun s => decide (labelsOf s = k)) rest).getLast? <;> simp
      rw [hlast]
      cases hl : lastPrice rest k with
      | none => simp [GaugeVec.value_withSet, hk]
      | some v => simp
    · have hlast : lastPrice (scr :: rest) k = lastPrice rest k := by
        simp [lastPrice, List.filter_cons, hk]
      rw [hlast]
      cases hl : lastPrice rest k with
      | none => simp [GaugeVec.value_withSet, hk]
      | some v => simp

theorem nodup_keys_drain {F : Type} (scrapes : List (SpotMarketScrapeResult F)) (g : GaugeVec F)
    (h : (g.map Prod.fst).Nodup) :
    ((scrapes.foldl (fun g scr => GaugeVec.withSet g (labelsOf scr) scr.Price) g).map
      Prod.fst).Nodup := by
  induction scrapes generalizing g with
  | nil => simpa using h
  | cons scr rest ih =>
    rw [List.foldl_cons]
    exact ih _ (GaugeVec.nodup_keys_withSet g _ _ h)

theorem lastPrice_isSome_iff {F : Type} (scrapes : List (SpotMarketScrapeResult F))
    (k : Labels) : (lastPrice scrapes k).isSome ↔ ∃ scr ∈ scrapes, labelsOf scr = k := by
  unfold lastPrice
  cases hf : List.filter (fun scr => decide (labelsOf scr = k)) scrapes with
  | nil =>
    simp only [List.getLast?_nil, Option.map_none', Option.isSome_none, Bool.false_eq_true,
      false_iff]
    rintro ⟨scr, hmem, hk⟩
    have : scr ∈ List.filter (fun scr => decide (labelsOf scr = k)) scrapes := by
      simp [List.mem_filter, hmem, hk]
    rw [hf] at this
    cases this
  | cons x xs =>
    have hx : x ∈ List.filter (fun scr => decide (labelsOf scr = k)) scrapes := by
      rw [hf]
      exact List.mem_cons_self _ _
    rw [List.mem_filter] at hx
    simp only [List.getLast?_cons, Option.map_some', Option.isSome_some, true_iff]
    exact ⟨x, hx.1, by simpa using hx.2⟩

/-- The drain over the empty vector of `initGauges`. -/
theorem setSpotMarketMetrics_lemma {F : Type} (e : Exporter F)
    (scrapes : List (SpotMarketScrapeResult F)) :
    (∀ k, GaugeVec.value (setSpotMarketMetrics (initGauges e) scrapes).spotMarketPrices k =
      lastPrice scrapes k) ∧
    (∀ k, (GaugeVec.value (setSpotMarketMetrics (initGauges e) scrapes).spotMarketPrices k).isSome ↔
      ∃ scr ∈ scrapes, labelsOf scr = k) ∧
    ((setSpotMarketMetrics (initGauges e) scrapes).spotMarketPrices.map Prod.fst).Nodup := by
  have hval : ∀ k,
      GaugeVec.value (setSpotMarketMetrics (initGauges e) scrapes).spotMarketPrices k =
        lastPrice scrapes k := by
    intro k
    simp only [setSpotMarketMetrics, initGauges]
    rw [value_drain]
    cases lastPrice scrapes k <;> simp [GaugeVec.value]
  refine ⟨hval, ?_, ?_⟩
  · intro k
    rw [hval, lastPrice_isSome_iff]
  · simp only [setSpotMarketMetrics, initGauges]
    exact nodup_keys_drain scrapes [] (by simp)

theorem GaugeVec.value_isSome_of_mem_keys {F : Type} (g : GaugeVec F) (k : Labels)
    (h : k ∈ g.map Prod.fst) : (GaugeVec.value g k).isSome = true := by
  induction g with
  | nil => simp at h
  | cons kv rest ih =>
    obtain ⟨k0, v0⟩ := kv
    by_cases h0 : k0 = k
    · simp [GaugeVec.value, h0]
    · simp only [List.map_cons, List.mem_cons] at h
      rcases h with h | h
      · exact absurd h.symm h0
      · simp [GaugeVec.value, h0, ih h]

/-! ## Snapshot aggregator: the claim -/

/-- C7: `setSpotMarketMetrics` run on any finite sequence of samples over the
empty vector of `initGauges` gives a vector in which a label set has a series
exactly when some sample of the sequence has these labels; the value of the
series is the price of the last such sample; and no label set has two series. -/
theorem setSpotMarketMetrics_last_write_wins {F : Type} (e : Exporter F)
    (scrapes : List (SpotMarketScrapeResult F)) :
    (∀ k, GaugeVec.value (setSpotMarketMetrics (initGauges e) scrapes).spotMarketPrices k =
      ((scrapes.filter fun scr => labelsOf scr = k).getLast?).map fun scr => scr.Price) ∧
    (∀ k, (GaugeVec.value (setSpotMarketMetrics (initGauges e) scrapes).spotMarketPrices k).isSome ↔
      ∃ scr ∈ scrapes, labelsOf scr = k) ∧
    ((setSpotMarketMetrics (initGauges e) scrapes).spotMarketPrices.map Prod.fst).Nodup :=
  setSpotMarketMetrics_lemma e scrapes

/-! ## Collection coordinator: lemmas -/

/-- A cycle that dereferences no nil pointer completes. -/
theorem Collect_of_cycleSafe {F : Type} (parseFloat : String → Option F) (e : Exporter F)
    (c : Cycle) (hsafe : cycleSafe parseFloat c.aws = true) :
    ∃ e1, scrape parseFloat (initGauges e) c = .ok (e1, cycleSamples parseFloat c) ∧
      e1.spotMarketPrices = [] ∧ e1.totalScrapes = e.totalScrapes + 1 ∧
      Collect parseFloat e c =
        .ok (setSpotMarketMetrics e1 (cycleSamples parseFloat c),
          ⟨e1.duration, e1.totalScrapes, e1.scrapeErrors,
            (setSpotMarketMetrics e1 (cycleSamples parseFloat c)).spotMarketPrices⟩) := by
  have hrun := scrape_of_cycleSafe parseFloat (initGauges e) c hsafe
  refine ⟨_, hrun, rfl, rfl, ?_⟩
  unfold Collect
  rw [hrun]
  rfl

/-- `Collect` completes exactly when no dereference of the cycle hits nil. -/
theorem Collect_completes_iff {F : Type} (parseFloat : String → Option F) (e : Exporter F)
    (c : Cycle) :
    (∃ e' out, Collect parseFloat e c = .ok (e', out)) ↔ cycleSafe parseFloat c.aws = true := by
  constructor
  · rintro ⟨e', out, h⟩
    cases hs : cycleSafe parseFloat c.aws with
    | true => rfl
    | false =>
      have hrun := scrape_of_not_cycleSafe parseFloat (initGauges e) c hs
      simp [Collect, hrun] at h
  · intro hs
    obtain ⟨e1, _, _, _, hcollect⟩ := Collect_of_cycleSafe parseFloat e c hs
    exact ⟨_, _, hcollect⟩

/-! ## Collection coordinator: the claims -/

/-- C6: a `Collect` that completes (`cycleSafe`, which by
`Collect_completes_iff` holds exactly then) sends a price family that holds
exactly the series set from the values handed over on the channel during its
own `scrape`: the value of a series is the price of the last such value with its
labels, a label set none of them has is absent, no label set has two series,
and a `Collect` of the same cycle from any other exporter state sends the same
price family. -/
theorem Collect_snapshot_of_own_cycle {F : Type} (parseFloat : String → Option F)
    (e e₂ : Exporter F) (c : Cycle) (hsafe : cycleSafe parseFloat c.aws = true) :
    ∃ e1 spotScrapes e' out,
      scrape parseFloat (initGauges e) c = .ok (e1, spotScrapes) ∧
      Collect parseFloat e c = .ok (e', out) ∧
      (∀ k, GaugeVec.value out.spotMarketPrices k =
        ((spotScrapes.filter fun scr => labelsOf scr = k).getLast?).map fun scr => scr.Price) ∧
      (∀ k, (∀ scr ∈ spotScrapes, labelsOf scr ≠ k) →
        GaugeVec.value out.spotMarketPrices k = none ∧ k ∉ out.spotMarketPrices.map Prod.fst) ∧
      (out.spotMarketPrices.map Prod.fst).Nodup ∧
      ∃ e₂' out₂, Collect parseFloat e₂ c = .ok (e₂', out₂) ∧
        out₂.spotMarketPrices = out.spotMarketPrices := by
  obtain ⟨e1, hrun, hempty, _, hcollect⟩ := Collect_of_cycleSafe parseFloat e c hsafe
  obtain ⟨e1', _, hempty', _, hcollect'⟩ := Collect_of_cycleSafe parseFloat e₂ c hsafe
  have hinit : ∀ x : Exporter F, x.spotMarketPrices = [] →
      (setSpotMarketMetrics x (cycleSamples parseFloat c)).spotMarketPrices =
        (setSpotMarketMetrics (initGauges e) (cycleSamples parseFloat c)).spotMarketPrices := by
    intro x hx
    simp [setSpotMarketMetrics, initGauges, hx]
  obtain ⟨hval, hsome, hnodup⟩ :=
    setSpotMarketMetrics_lemma e (cycleSamples parseFloat c)
  refine ⟨e1, _, _, _, hrun, hcollect, ?_, ?_, ?_, _, _, hcollect', ?_⟩
  · intro k
    show GaugeVec.value (setSpotMarketMetrics e1 (cycleSamples parseFloat c)).spotMarketPrices k
      = _
    rw [hinit e1 hempty]
    exact hval k
  · intro k hk
    have hnone : GaugeVec.value
        (setSpotMarketMetrics e1 (cycleSamples parseFloat c)).spotMarketPrices k = none := by
      rw [hinit e1 hempty]
      cases hv : GaugeVec.value
          (setSpotMarketMetrics (initGauges e) (cycleSamples parseFloat c)).spotMarketPrices k with
      | none => rfl
      | some v =>
        have := (hsome k).mp (by rw [hv]; rfl)
        obtain ⟨scr, hmem, hlab⟩ := this
        exact absurd hlab (hk scr hmem)
    exact ⟨hnone, fun hmem => by
      have := GaugeVec.value_isSome_of_mem_keys _ k hmem
      rw [hnone] at this
      cases this⟩
  · show ((setSpotMarketMetrics e1 (cycleSamples parseFloat c)).spotMarketPrices.map
      Prod.fst).Nodup
    rw [hinit e1 hempty]
    exact hnodup
  · show (setSpotMarketMetrics e1' (cycleSamples parseFloat c)).spotMarketPrices =
      (setSpotMarketMetrics e1 (cycleSamples parseFloat c)).spotMarketPrices
    rw [hinit e1 hempty, hinit e1' hempty']

/-- C6 at scenario A, on an exporter that holds a series of a region "z" from
an earlier cycle: the price family sent is the one series of region "a". -/
theorem Collect_snapshot_of_own_cycle_witness :
    cycleSafe parseDecimal scenarioA.aws = true ∧
    Collect parseDecimal exporterAfterSeven scenarioA =
      .ok (⟨[(⟨"a", "a-1", "Linux/UNIX", "t3.micro"⟩, ⟨123, 4⟩)], 1500000000, 0, 8⟩,
        ⟨1500000000, 8, 0, [(⟨"a", "a-1", "Linux/UNIX", "t3.micro"⟩, ⟨123, 4⟩)]⟩) ∧
    ∃ e1 spotScrapes e' out,
      scrape parseDecimal (initGauges exporterAfterSeven) scenarioA = .ok (e1, spotScrapes) ∧
      Collect parseDecimal exporterAfterSeven scenarioA = .ok (e', out) ∧
      (∀ k, GaugeVec.value out.spotMarketPrices k =
        ((spotScrapes.filter fun scr => labelsOf scr = k).getLast?).map fun scr => scr.Price) ∧
      (∀ k, (∀ scr ∈ spotScrapes, labelsOf scr ≠ k) →
        GaugeVec.value out.spotMarketPrices k = none ∧ k ∉ out.spotMarketPrices.map Prod.fst) ∧
      (out.spotMarketPrices.map Prod.fst).Nodup ∧
      ∃ e₂' out₂, Collect parseDecimal ⟨[], 0, 0, 0⟩ scenarioA = .ok (e₂', out₂) ∧
        out₂.spotMarketPrices = out.spotMarketPrices :=
  ⟨by decide, rfl,
    Collect_snapshot_of_own_cycle parseDecimal exporterAfterSeven ⟨[], 0, 0, 0⟩ scenarioA
      (by decide)⟩

/-- C8: a `Collect` that completes (`cycleSafe`, which by
`Collect_completes_iff` holds exactly then) leaves the total-cycles counter one
above its value before, in the exporter and in the family sent, whether region
discovery fails, listing calls fail, records do not parse, or everything
succeeds. -/
theorem Collect_totalScrapes {F : Type} (parseFloat : String → Option F) (e : Exporter F)
    (c : Cycle) (hsafe : cycleSafe parseFloat c.aws = true) :
    ∃ e' out, Collect parseFloat e c = .ok (e', out) ∧
      e'.totalScrapes = e.totalScrapes + 1 ∧ out.totalScrapes = e.totalScrapes + 1 := by
  obtain ⟨e1, _, _, htotal, hcollect⟩ := Collect_of_cycleSafe parseFloat e c hsafe
  exact ⟨_, _, hcollect, htotal, htotal⟩

/-- C8 at the scenarios A (all regions succeed), B (a record does not parse)
and C (discovery fails), and at a cycle whose listing call fails. -/
theorem Collect_totalScrapes_witness :
    (cycleSafe parseDecimal scenarioA.aws = true ∧
      ∃ e' out, Collect parseDecimal exporterAfterSeven scenarioA = .ok (e', out) ∧
        e'.totalScrapes = 7 + 1 ∧ out.totalScrapes = 7 + 1) ∧
    (cycleSafe parseDecimal scenarioB.aws = true ∧
      ∃ e' out, Collect parseDecimal exporterAfterSeven scenarioB = .ok (e', out) ∧
        e'.totalScrapes = 7 + 1 ∧ out.totalScrapes = 7 + 1) ∧
    (cycleSafe parseDecimal scenarioC.aws = true ∧
      ∃ e' out, Collect parseDecimal exporterAfterSeven scenarioC = .ok (e', out) ∧
        e'.totalScrapes = 7 + 1 ∧ out.totalScrapes = 7 + 1) ∧
    (cycleSafe parseDecimal awsMixed = true ∧
      ∃ e' out, Collect parseDecimal exporterAfterSeven ⟨awsMixed, 0, 2, [0]⟩ = .ok (e', out) ∧
        e'.totalScrapes = 7 + 1 ∧ out.totalScrapes = 7 + 1) :=
  ⟨⟨by decide, Collect_totalScrapes parseDecimal exporterAfterSeven scenarioA (by decide)⟩,
    ⟨by decide, Collect_totalScrapes parseDecimal exporterAfterSeven scenarioB (by decide)⟩,
    ⟨by decide, Collect_totalScrapes parseDecimal exporterAfterSeven scenarioC (by decide)⟩,
    ⟨by decide,
      Collect_totalScrapes parseDecimal exporterAfterSeven ⟨awsMixed, 0, 2, [0]⟩ (by decide)⟩⟩

end Collector
